import Mathlib

/-!
Verification of the pfm (port forward manager) control plane.

This file gives a shallow embedding of the rule-lifecycle engine
(`internal/engine`, including the engine file shipped with stats/log
support), the statistics tracker, the log ring buffer, the persistence
store (`internal/storage/store.go`) and the local controller
(`internal/controller/local.go`), and proves the behavioural properties
stated for them.

Modelling conventions:
- Go maps keyed by rule id become association lists (`List (String × α)`)
  whose key lists are kept duplicate-free by the operations themselves.
- Go `time.Time` values are abstracted as `Int` timestamps, and formatted
  timestamps as `String` parameters threaded into the operations.
- Mutating methods returning `error` become functions returning the new
  state paired with `Option PfmErr` (`none` = Go `nil`).
- The gost forwarding library is external to the repository; service
  construction (`BuildService`) is abstracted as a function parameter
  `build : Rule → List Chain → Except String Unit`, and the serve-loop
  exit handling is modelled as a pure transition on the engine state.
- File I/O (`Store.save`) and JSON (de)serialisation are external
  collaborators (the spec declares the persistence file format out of
  scope); `save` is modelled as always succeeding and the export payload
  is modelled as the marshalled value itself.
-/

/-! ### Association-list helpers (Go map semantics) -/

/-- Lookup of a key in an association list (Go `m[k]`, comma-ok form). -/
def lookupKey (k : String) : List (String × α) → Option α
  | [] => none
  | (k', v) :: t => if k' = k then some v else lookupKey k t

/-- Go `m[k] = v`: replace the binding if the key is present, else append. -/
def setKey (k : String) (v : α) : List (String × α) → List (String × α)
  | [] => [(k, v)]
  | (k', v') :: t => if k' = k then (k, v) :: t else (k', v') :: setKey k v t

/-- Go `delete(m, k)`: remove the binding for a key. -/
def eraseKey (k : String) (l : List (String × α)) : List (String × α) :=
  l.filter (fun p => p.1 != k)

/-- Go `strings.Contains s pat`: substring containment on character lists. -/
def charsHaveSub (pat : List Char) : List Char → Bool
  | [] => pat.isEmpty
  | c :: t => pat.isPrefixOf (c :: t) || charsHaveSub pat t

/-- Go `strings.Contains`. -/
def strContains (s pat : String) : Bool :=
  charsHaveSub pat.toList s.toList

/-! ### Data model (internal/models) -/

/-- Rule type (`models.RuleType`): forward / reverse / chain. -/
inductive RuleType where
  | forward
  | reverse
  | chain
deriving DecidableEq, Repr

/-- Rule status (`models.RuleStatus`). -/
inductive RuleStatus where
  | stopped
  | running
  | error
deriving DecidableEq, Repr

/-- Network protocol (`models.Protocol`). -/
inductive Protocol where
  | tcp
  | udp
  | http
  | https
  | socks5
  | ss
deriving DecidableEq, Repr

/-- Deployment environment (`models.Environment`). -/
inductive Environment where
  | trunk
  | preProd
  | production
  | custom
deriving DecidableEq, Repr

/-- Forwarding target (`models.Target`). -/
structure Target where
  Host : String
  Port : Int
  Weight : Int
deriving DecidableEq, Repr

/-- Authentication configuration (`models.Auth`). -/
structure Auth where
  Username : String
  Password : String
deriving DecidableEq, Repr

/-- TLS configuration (`models.TLSConfig`). -/
structure TLSConfig where
  Enabled : Bool
  CertFile : String
  KeyFile : String
  CAFile : String
  ServerName : String
  Secure : Bool
deriving DecidableEq, Repr

/-- Forwarding rule (`models.Rule`); `time.Time` fields become `Int` and
the Go field `Type` is spelled `RType` (`Type` is reserved in Lean). -/
structure Rule where
  ID : String
  Name : String
  Environment : Environment
  RType : RuleType
  Enabled : Bool
  LocalPort : Int
  Protocol : Protocol
  TargetHost : String
  TargetPort : Int
  Targets : List Target
  ChainID : String
  Auth : Option Auth
  TLS : Option TLSConfig
  Status : RuleStatus
  ErrorMsg : String
  Description : String
  Remark : String
  CreatedAt : Int
  UpdatedAt : Int
deriving DecidableEq, Repr

/-- Proxy-chain hop (`models.Hop`). -/
structure Hop where
  Name : String
  Addr : String
  Protocol : Protocol
  Auth : Option Auth
  TLS : Option TLSConfig
deriving DecidableEq, Repr

/-- Proxy chain (`models.Chain`). -/
structure Chain where
  ID : String
  Name : String
  Hops : List Hop
  Description : String
  CreatedAt : Int
  UpdatedAt : Int
deriving DecidableEq, Repr

/-- Errors of `models/errors.go` that the modelled operations can return. -/
inductive PfmErr where
  | ErrRuleNameEmpty
  | ErrListenAddrEmpty
  | ErrNoTargets
  | ErrRuleNotFound
  | ErrRuleExists
  | ErrChainNotFound
  | ErrChainExists
  | ErrChainInUse
  | ErrServiceNotRunning
  | ErrServiceRunning
  | EngineError (ruleID op message errText : String)
deriving DecidableEq, Repr

/-- `Rule.Validate` from models/rule.go; `none` models a nil error. -/
def Rule.Validate (r : Rule) : Option PfmErr :=
  if r.Name = "" then some .ErrRuleNameEmpty
  else if r.LocalPort ≤ 0 then some .ErrListenAddrEmpty
  else if r.TargetHost ≠ "" ∧ r.TargetPort > 0 then none
  else if r.Targets.length = 0 ∧ r.RType ≠ .chain then some .ErrNoTargets
  else none

/-- `Rule.GetListenAddr`: `fmt.Sprintf(":%d", r.LocalPort)`. -/
def Rule.GetListenAddr (r : Rule) : String :=
  ":" ++ toString r.LocalPort

/-- `Rule.Clone` builds a deep copy; with value semantics it is the
identity on the modelled record. -/
def Rule.Clone (r : Rule) : Rule := r

/-- `Chain.Clone`, likewise a deep copy. -/
def Chain.Clone (c : Chain) : Chain := c

/-! ### Stats pipeline (StatsTracker, from the engine stats file) -/

/-- Per-rule statistics entry (`engine.RuleStatsEntry`). -/
structure RuleStatsEntry where
  BytesIn : Int
  BytesOut : Int
  Connections : Int
  ActiveConns : Int
  Errors : Int
  LastActivity : Int
deriving DecidableEq, Repr

/-- `engine.StatsTracker`: one entry per rule id. -/
structure StatsTracker where
  stats : List (String × RuleStatsEntry)
deriving DecidableEq, Repr

/-- `NewStatsTracker`. -/
def NewStatsTracker : StatsTracker := ⟨[]⟩

/-- `StatsTracker.InitRule`: install a zeroed entry stamped with now. -/
def StatsTracker.InitRule (t : StatsTracker) (ruleID : String) (nowT : Int) :
    StatsTracker :=
  ⟨setKey ruleID ⟨0, 0, 0, 0, 0, nowT⟩ t.stats⟩

/-- `StatsTracker.IncrementErrors`: bump the error counter if the entry
exists; a missing id is a no-op. -/
def StatsTracker.IncrementErrors (t : StatsTracker) (ruleID : String) :
    StatsTracker :=
  match lookupKey ruleID t.stats with
  | none => t
  | some entry =>
      ⟨setKey ruleID { entry with Errors := entry.Errors + 1 } t.stats⟩

/-- `StatsTracker.ResetStats`: the source stores zero into BytesIn,
BytesOut, Connections and Errors of an existing entry (and into no other
field). -/
def StatsTracker.ResetStats (t : StatsTracker) (ruleID : String) :
    StatsTracker :=
  match lookupKey ruleID t.stats with
  | none => t
  | some entry =>
      ⟨setKey ruleID
        { entry with BytesIn := 0, BytesOut := 0, Connections := 0, Errors := 0 }
        t.stats⟩

/-- The four stores performed by the reset loops: zero BytesIn,
BytesOut, Connections and Errors, and nothing else. -/
def RuleStatsEntry.resetCounters (x : RuleStatsEntry) : RuleStatsEntry :=
  { x with BytesIn := 0, BytesOut := 0, Connections := 0, Errors := 0 }

/-- `StatsTracker.ResetAllStats`: the same four stores, for every entry. -/
def StatsTracker.ResetAllStats (t : StatsTracker) : StatsTracker :=
  ⟨t.stats.map (fun p => (p.1, p.2.resetCounters))⟩

/-! ### Log pipeline (internal/engine/logger.go) -/

/-- Log severity (`engine.LogLevel`). -/
inductive LogLevel where
  | debug
  | info
  | warn
  | error
deriving DecidableEq, Repr

/-- A structured log entry (`engine.LogEntry`); the formatted timestamp
is an opaque `String`. -/
structure LogEntry where
  ID : Int
  Timestamp : String
  Level : LogLevel
  RuleID : String
  RuleName : String
  Message : String
  Details : String
deriving DecidableEq, Repr

/-- `engine.LogManager`: bounded buffer with monotonically assigned ids.
The change callback fires outside the lock and does not touch the state,
so it is not part of the model. -/
structure LogManager where
  entries : List LogEntry
  maxSize : Int
  nextID : Int
deriving DecidableEq, Repr

/-- `NewLogManager`: a non-positive capacity falls back to 1000. -/
def NewLogManager (maxSize : Int) : LogManager :=
  { entries := [], maxSize := if maxSize ≤ 0 then 1000 else maxSize, nextID := 1 }

/-- `LogManager.Add`: assign the next id, then either append or (at
capacity) drop the oldest entry and append. `now` is the formatted
timestamp `time.Now().Format(time.RFC3339)`. -/
def LogManager.Add (m : LogManager) (now : String) (level : LogLevel)
    (ruleID ruleName message : String) (details : List String) : LogManager :=
  let entry : LogEntry :=
    { ID := m.nextID, Timestamp := now, Level := level, RuleID := ruleID,
      RuleName := ruleName, Message := message,
      Details := match details with | [] => "" | d :: _ => d }
  let entries :=
    if (m.entries.length : Int) ≥ m.maxSize then m.entries.tail ++ [entry]
    else m.entries ++ [entry]
  { m with entries := entries, nextID := m.nextID + 1 }

/-- `LogManager.Clear`: drop the buffer, keep `nextID`. -/
def LogManager.Clear (m : LogManager) : LogManager :=
  { m with entries := [] }

/-- `LogManager.GetAll`. -/
def LogManager.GetAll (m : LogManager) : List LogEntry :=
  m.entries

/-- `LogManager.GetSince`: the buffered entries with id strictly greater
than `sinceID`, in buffer order. -/
def LogManager.GetSince (m : LogManager) (sinceID : Int) : List LogEntry :=
  m.entries.filter (fun e => e.ID > sinceID)

/-- Payload of one `Add` call (everything except the assigned id). -/
structure AddPayload where
  now : String
  level : LogLevel
  ruleID : String
  ruleName : String
  message : String
  details : List String
deriving DecidableEq, Repr

/-- Apply one payload. -/
def LogManager.addPayload (m : LogManager) (p : AddPayload) : LogManager :=
  m.Add p.now p.level p.ruleID p.ruleName p.message p.details

/-- A sequence of `Add` calls. -/
def LogManager.addMany (m : LogManager) (pays : List AddPayload) : LogManager :=
  pays.foldl LogManager.addPayload m

/-- One operation against the log manager: `Add` or `Clear`. -/
inductive LogOp where
  | add (p : AddPayload)
  | clear
deriving DecidableEq, Repr

/-- Run a sequence of log operations. -/
def LogManager.runOps (m : LogManager) : List LogOp → LogManager
  | [] => m
  | .add p :: t => (m.addPayload p).runOps t
  | .clear :: t => m.Clear.runOps t

/-- The ids handed out by the successive `Add` calls of an operation
sequence, in call order. -/
def LogManager.assignedIds (m : LogManager) : List LogOp → List Int
  | [] => []
  | .add p :: t => m.nextID :: (m.addPayload p).assignedIds t
  | .clear :: t => m.Clear.assignedIds t

/-! ### Engine (the engine file with stats/log support) -/

/-- A running service entry (`engine.serviceEntry`); the gost service
handle and the cancel function are external and carry no state that the
verified properties depend on. -/
structure ServiceEntry where
  rule : Rule
deriving DecidableEq, Repr

/-- The engine state (`engine.Engine`): running services keyed by rule
id, chain configuration, stats tracker and log manager. -/
structure Engine where
  services : List (String × ServiceEntry)
  chains : List Chain
  stats : StatsTracker
  logMgr : LogManager
deriving DecidableEq, Repr

/-- `engine.New`: empty running set, no chains, fresh tracker, log
capacity 1000. (Observer registration and the polling goroutine touch
only the external gost registry.) -/
def Engine.New : Engine :=
  { services := [], chains := [], stats := NewStatsTracker,
    logMgr := NewLogManager 1000 }

/-- `Engine.IsRunning`. -/
def Engine.IsRunning (e : Engine) (id : String) : Bool :=
  (lookupKey id e.services).isSome

/-- `Engine.GetRunningRuleIDs` (map iteration order modelled as
insertion order). -/
def Engine.GetRunningRuleIDs (e : Engine) : List String :=
  e.services.map Prod.fst

/-- `Engine.StartRule`. `build` abstracts `BuildService` (the gost
adapter), `now`/`nowT` the wall clock. Returns the new engine state and
the Go error. Mirrors the source order: running check, validation,
build (logging on failure), stats init, entry registration, start log. -/
def Engine.StartRule (build : Rule → List Chain → Except String Unit)
    (now : String) (nowT : Int) (e : Engine) (rule : Rule) :
    Engine × Option PfmErr :=
  if (lookupKey rule.ID e.services).isSome then
    (e, some .ErrServiceRunning)
  else
    match rule.Validate with
    | some verr => (e, some verr)
    | none =>
      match build rule e.chains with
      | .error msg =>
          ({ e with logMgr := e.logMgr.Add now .error rule.ID rule.Name "启动失败" [msg] },
           some (.EngineError rule.ID "build" "failed to build service" msg))
      | .ok _ =>
          ({ e with
              stats := e.stats.InitRule rule.ID nowT,
              services := e.services ++ [(rule.ID, ⟨rule.Clone⟩)],
              logMgr := e.logMgr.Add now .info rule.ID rule.Name
                ("服务启动: 监听 " ++ rule.GetListenAddr) [] },
           none)

/-- `Engine.StopRule`: fail with `ErrServiceNotRunning` if absent,
otherwise log the stop, cancel/close (external), unregister and remove
the entry. The stats entry is deliberately kept (the removal is
commented out in the source). -/
def Engine.StopRule (e : Engine) (id : String) (now : String) :
    Engine × Option PfmErr :=
  match lookupKey id e.services with
  | none => (e, some .ErrServiceNotRunning)
  | some entry =>
      ({ e with
          logMgr := e.logMgr.Add now .info id entry.rule.Name "服务停止" [],
          services := eraseKey id e.services },
       none)

/-- One lifecycle call against the engine. -/
inductive EngineOp where
  | start (r : Rule)
  | stop (id : String)

/-- Run a sequence of `StartRule`/`StopRule` calls (discarding the
returned errors). -/
def Engine.runOps (build : Rule → List Chain → Except String Unit)
    (now : String) (nowT : Int) (e : Engine) : List EngineOp → Engine
  | [] => e
  | .start r :: t =>
      Engine.runOps build now nowT (Engine.StartRule build now nowT e r).1 t
  | .stop id :: t =>
      Engine.runOps build now nowT (Engine.StopRule e id now).1 t

/-- The serve-goroutine exit handler of `Engine.StartRule`, as a pure
transition. `ctxDone` is whether the entry's cancellation context had
fired, `errMsg` the non-nil serve error text. Returns the new engine
state and the status-change callback invocation, if any. Mirrors the
source: cancelled → silent; message containing the closed-connection
marker → silent return; otherwise log + error counter, and only for the
bind/permission substrings report `error` and delete the entry. -/
def Engine.serveExit (e : Engine) (ruleID ruleName : String)
    (ctxDone : Bool) (errMsg : String) (now : String) :
    Engine × Option (String × String × String) :=
  if ctxDone then (e, none)
  else if strContains errMsg "use of closed network connection" then (e, none)
  else
    let e1 : Engine :=
      { e with
          logMgr := e.logMgr.Add now .error ruleID ruleName "错误" [errMsg],
          stats := e.stats.IncrementErrors ruleID }
    if strContains errMsg "address already in use" ||
        strContains errMsg "permission denied" ||
        strContains errMsg "bind:" then
      ({ e1 with services := eraseKey ruleID e1.services },
       some (ruleID, "error", errMsg))
    else
      (e1, none)

/-! ### Persistence store (internal/storage/store.go) -/

/-- Application configuration (`models.AppConfig`). -/
structure AppConfig where
  LogLevel : String
  AutoStart : Bool
  StartMinimized : Bool
  TrayEnabled : Bool
  HotkeyEnabled : Bool
  HotkeyModifiers : String
  HotkeyKey : String
  ServiceEnabled : Bool
  ServicePort : Int
  APIEnabled : Bool
  APIAddr : String
  APIAuth : Option Auth
  MetricsEnabled : Bool
  MetricsAddr : String
deriving DecidableEq, Repr

/-- `models.DefaultAppConfig`. -/
def DefaultAppConfig : AppConfig :=
  { LogLevel := "info", AutoStart := true, StartMinimized := false,
    TrayEnabled := true, HotkeyEnabled := true,
    HotkeyModifiers := "cmd+shift", HotkeyKey := "p",
    ServiceEnabled := false, ServicePort := 0,
    APIEnabled := false, APIAddr := ":18080", APIAuth := none,
    MetricsEnabled := false, MetricsAddr := ":9000" }

/-- All persistent application data (`models.AppData`). -/
structure AppData where
  Config : AppConfig
  Rules : List Rule
  Chains : List Chain
deriving DecidableEq, Repr

/-- `models.NewAppData`. -/
def NewAppData : AppData :=
  { Config := DefaultAppConfig, Rules := [], Chains := [] }

/-- The store (`storage.Store`); the data directory and file handling is
external I/O, and `save` is modelled as succeeding. -/
structure Store where
  data : AppData
deriving DecidableEq, Repr

/-- `Store.GetRules`: a cloned snapshot. -/
def Store.GetRules (s : Store) : List Rule :=
  s.data.Rules.map Rule.Clone

/-- `Store.GetChains`: a cloned snapshot. -/
def Store.GetChains (s : Store) : List Chain :=
  s.data.Chains.map Chain.Clone

/-- The inner loop of `Store.UpdateRuleStatus`: update the first rule
with the given id and report whether one was found. -/
def updateStatusInRules (id : String) (status : RuleStatus)
    (errorMsg : String) (nowT : Int) : List Rule → List Rule × Bool
  | [] => ([], false)
  | r :: t =>
      if r.ID = id then
        ({ r with Status := status, ErrorMsg := errorMsg, UpdatedAt := nowT } :: t,
         true)
      else
        let rec' := updateStatusInRules id status errorMsg nowT t
        (r :: rec'.1, rec'.2)

/-- `Store.UpdateRuleStatus`: set status/error text of the rule with the
given id, or fail with `ErrRuleNotFound`. -/
def Store.UpdateRuleStatus (s : Store) (id : String) (status : RuleStatus)
    (errorMsg : String) (nowT : Int) : Store × Option PfmErr :=
  let u := updateStatusInRules id status errorMsg nowT s.data.Rules
  if u.2 then ({ data := { s.data with Rules := u.1 } }, none)
  else (s, some .ErrRuleNotFound)

/-- The inner loop of the rule half of `Store.ImportData` with
merge=true: overwrite the first existing rule with the same id in place,
and report whether one was found. -/
def replaceRuleByID (newRule : Rule) : List Rule → List Rule × Bool
  | [] => ([], false)
  | r :: t =>
      if r.ID = newRule.ID then (newRule.Clone :: t, true)
      else
        let rec' := replaceRuleByID newRule t
        (r :: rec'.1, rec'.2)

/-- Merge one imported rule: overwrite in place if the id exists,
otherwise append a clone. -/
def mergeOneRule (rules : List Rule) (newRule : Rule) : List Rule :=
  let u := replaceRuleByID newRule rules
  if u.2 then u.1 else rules ++ [newRule.Clone]

/-- The chain half of the merge, structurally identical. -/
def replaceChainByID (newChain : Chain) : List Chain → List Chain × Bool
  | [] => ([], false)
  | c :: t =>
      if c.ID = newChain.ID then (newChain.Clone :: t, true)
      else
        let rec' := replaceChainByID newChain t
        (c :: rec'.1, rec'.2)

/-- Merge one imported chain. -/
def mergeOneChain (chains : List Chain) (newChain : Chain) : List Chain :=
  let u := replaceChainByID newChain chains
  if u.2 then u.1 else chains ++ [newChain.Clone]

/-- `Store.ImportData`: with merge=true fold every imported rule and
chain into the existing lists; with merge=false replace the whole data
record. (`save` is external and modelled as succeeding, so no error is
returned.) -/
def Store.ImportData (s : Store) (data : AppData) (merge : Bool) : Store :=
  if merge then
    { data := { s.data with
        Rules := data.Rules.foldl mergeOneRule s.data.Rules,
        Chains := data.Chains.foldl mergeOneChain s.data.Chains } }
  else
    { data := data }

/-- `Store.ExportData` marshals `s.data`; the payload is modelled as the
marshalled value itself (JSON encoding is an external collaborator and
the spec places the file format out of scope), so export followed by
decoding is the data record. -/
def Store.ExportData (s : Store) : AppData :=
  s.data

/-! ### Local controller (internal/controller/local.go) -/

/-- `controller.LocalController`: engine plus store. -/
structure LocalController where
  engine : Engine
  store : Store
deriving DecidableEq, Repr

/-- `LocalController.StopRule`: ask the engine to stop, tolerate
`ErrServiceNotRunning`, then force the persisted status to stopped,
discarding the status-update result. -/
def LocalController.StopRule (c : LocalController) (id : String)
    (now : String) (nowT : Int) : LocalController × Option PfmErr :=
  let stop := Engine.StopRule c.engine id now
  match stop.2 with
  | some err =>
      if err ≠ PfmErr.ErrServiceNotRunning then
        ({ c with engine := stop.1 }, some err)
      else
        let upd := Store.UpdateRuleStatus c.store id .stopped "" nowT
        ({ engine := stop.1, store := upd.1 }, none)
  | none =>
      let upd := Store.UpdateRuleStatus c.store id .stopped "" nowT
      ({ engine := stop.1, store := upd.1 }, none)

/-! ### Auxiliary definitions for the statements and their instances -/

/-- A `BuildService` stand-in that always succeeds, for concrete runs. -/
def buildOkFn : Rule → List Chain → Except String Unit :=
  fun _ _ => .ok ()

/-- A concrete, structurally valid forwarding rule. -/
def testRule : Rule :=
  { ID := "rule-1", Name := "web", Environment := .custom, RType := .forward,
    Enabled := true, LocalPort := 8080, Protocol := .tcp,
    TargetHost := "127.0.0.1", TargetPort := 80, Targets := [],
    ChainID := "", Auth := none, TLS := none, Status := .stopped,
    ErrorMsg := "", Description := "", Remark := "",
    CreatedAt := 0, UpdatedAt := 0 }

/-- A fresh engine on which `testRule` has been started. -/
def testEngineRunning : Engine :=
  (Engine.StartRule buildOkFn "t0" 0 Engine.New testRule).1

/-- The integers `start, start+1, ..., start+n-1`, used to describe the
log ids handed out by consecutive `Add` calls. -/
def idRange (start : Int) : Nat → List Int
  | 0 => []
  | n + 1 => start :: idRange (start + 1) n

/-- Number of `Add` calls in a log-operation sequence. -/
def countAdds : List LogOp → Nat
  | [] => 0
  | .add _ :: t => countAdds t + 1
  | .clear :: t => countAdds t

/-- Shape invariant of every log manager reachable from `NewLogManager`:
positive capacity and a buffer within capacity. -/
def LogManager.WF (m : LogManager) : Prop :=
  1 ≤ m.maxSize ∧ (m.entries.length : Int) ≤ m.maxSize

/-- A concrete log payload for instantiations. -/
def testPayload : AddPayload :=
  { now := "t", level := .info, ruleID := "", ruleName := "",
    message := "m", details := [] }

/-- A second concrete rule. -/
def testRuleB : Rule :=
  { testRule with ID := "rule-2", Name := "db" }

/-- An imported rule carrying the id of `testRuleB` but new field
values. -/
def testRuleB2 : Rule :=
  { testRuleB with Name := "db-new", LocalPort := 9090 }

/-- A concrete store holding the two test rules. -/
def testStore : Store :=
  { data := { Config := DefaultAppConfig, Rules := [testRule, testRuleB],
              Chains := [] } }

/-- A concrete import payload that overwrites `testRuleB`. -/
def testImport : AppData :=
  { Config := DefaultAppConfig, Rules := [testRuleB2], Chains := [] }

/-! ### Helper lemmas about the map model -/

theorem lookupKey_eq_none_iff {α : Type} (k : String) (l : List (String × α)) :
    lookupKey k l = none ↔ k ∉ l.map Prod.fst := by
  induction l with
  | nil => simp [lookupKey]
  | cons p t ih =>
      obtain ⟨k', v⟩ := p
      by_cases h : k' = k
      · subst h; simp [lookupKey]
      · simp [lookupKey, h, ih, Ne.symm h]

theorem lookupKey_isSome_iff {α : Type} (k : String) (l : List (String × α)) :
    (lookupKey k l).isSome = true ↔ k ∈ l.map Prod.fst := by
  constructor
  · intro h
    by_contra hmem
    rw [(lookupKey_eq_none_iff k l).2 hmem] at h
    simp at h
  · intro hmem
    cases h : lookupKey k l with
    | some v => rfl
    | none => exact absurd hmem ((lookupKey_eq_none_iff k l).1 h)

theorem lookupKey_append {α : Type} (k : String) (l₁ l₂ : List (String × α)) :
    lookupKey k (l₁ ++ l₂) =
      match lookupKey k l₁ with
      | some v => some v
      | none => lookupKey k l₂ := by
  induction l₁ with
  | nil => simp [lookupKey]
  | cons p t ih =>
      obtain ⟨k', v⟩ := p
      by_cases h : k' = k
      · simp [lookupKey, h]
      · simp [lookupKey, h, ih]

theorem lookupKey_setKey_self {α : Type} (k : String) (v : α)
    (l : List (String × α)) : lookupKey k (setKey k v l) = some v := by
  induction l with
  | nil => simp [setKey, lookupKey]
  | cons p t ih =>
      obtain ⟨k', v'⟩ := p
      by_cases h : k' = k
      · simp [setKey, h, lookupKey]
      · simp [setKey, h, lookupKey, ih]

theorem lookupKey_eraseKey_self {α : Type} (k : String)
    (l : List (String × α)) : lookupKey k (eraseKey k l) = none := by
  induction l with
  | nil => simp [eraseKey, lookupKey]
  | cons p t ih =>
      obtain ⟨k', v'⟩ := p
      by_cases h : k' = k
      · simpa [eraseKey, h] using ih
      · simpa [eraseKey, lookupKey, h] using ih

theorem map_fst_eraseKey {α : Type} (k : String) (l : List (String × α)) :
    (eraseKey k l).map Prod.fst = (l.map Prod.fst).filter (fun x => x != k) := by
  induction l with
  | nil => simp [eraseKey]
  | cons p t ih =>
      obtain ⟨k', v'⟩ := p
      by_cases h : k' = k
      · simpa [eraseKey, List.filter_cons, h] using ih
      · simpa [eraseKey, List.filter_cons, bne_iff_ne, h, ih] using ih

/-! ### Engine lemmas -/

theorem startRule_services_cases
    (build : Rule → List Chain → Except String Unit) (now : String)
    (nowT : Int) (e : Engine) (r : Rule) :
    ((Engine.StartRule build now nowT e r).1).services = e.services ∨
      (lookupKey r.ID e.services = none ∧
        ((Engine.StartRule build now nowT e r).1).services
          = e.services ++ [(r.ID, ⟨r.Clone⟩)]) := by
  unfold Engine.StartRule
  cases hlk : lookupKey r.ID e.services with
  | some v => left; simp [hlk]
  | none =>
      cases hv : r.Validate with
      | some verr => left; simp [hlk, hv]
      | none =>
          cases hb : build r e.chains with
          | error msg => left; simp [hlk, hv, hb]
          | ok u => right; exact ⟨rfl, by simp [hlk, hv, hb]⟩

theorem startRule_ok_state
    (build : Rule → List Chain → Except String Unit) (now : String)
    (nowT : Int) (e : Engine) (r : Rule)
    (h : (Engine.StartRule build now nowT e r).2 = none) :
    lookupKey r.ID e.services = none ∧
      ((Engine.StartRule build now nowT e r).1).services
        = e.services ++ [(r.ID, ⟨r.Clone⟩)] ∧
      ((Engine.StartRule build now nowT e r).1).stats
        = e.stats.InitRule r.ID nowT := by
  cases hlk : lookupKey r.ID e.services with
  | some v =>
      unfold Engine.StartRule at h
      rw [hlk] at h
      simp at h
  | none =>
      unfold Engine.StartRule at h ⊢
      rw [hlk] at h ⊢
      cases hv : r.Validate with
      | some verr => rw [hv] at h; simp at h
      | none =>
          cases hb : build r e.chains with
          | error msg => rw [hv, hb] at h; simp at h
          | ok u => exact ⟨rfl, rfl, rfl⟩

theorem stopRule_not_running (e : Engine) (id : String) (now : String)
    (h : Engine.IsRunning e id = false) :
    Engine.StopRule e id now = (e, some PfmErr.ErrServiceNotRunning) := by
  unfold Engine.StopRule
  cases hlk : lookupKey id e.services with
  | some v => rw [Engine.IsRunning, hlk] at h; simp at h
  | none => rfl

theorem stopRule_running_state (e : Engine) (id : String) (now : String)
    (h : Engine.IsRunning e id = true) :
    (Engine.StopRule e id now).2 = none ∧
      (Engine.StopRule e id now).1.services = eraseKey id e.services ∧
      (Engine.StopRule e id now).1.stats = e.stats := by
  unfold Engine.StopRule
  cases hlk : lookupKey id e.services with
  | none => rw [Engine.IsRunning, hlk] at h; simp at h
  | some entry => exact ⟨rfl, rfl, rfl⟩

theorem keys_nodup_startRule
    (build : Rule → List Chain → Except String Unit) (now : String)
    (nowT : Int) (e : Engine) (r : Rule)
    (h : (e.services.map Prod.fst).Nodup) :
    ((((Engine.StartRule build now nowT e r).1).services).map Prod.fst).Nodup := by
  rcases startRule_services_cases build now nowT e r with hc | ⟨hnone, hc⟩
  · rw [hc]; exact h
  · rw [hc, List.map_append]
    have hni : r.ID ∉ e.services.map Prod.fst :=
      (lookupKey_eq_none_iff r.ID e.services).1 hnone
    simp only [List.map_cons, List.map_nil]
    refine List.Nodup.append h (List.nodup_singleton r.ID) ?_
    intro a ha hmem
    rw [List.mem_singleton] at hmem
    subst hmem
    exact hni ha

theorem keys_nodup_stopRule (e : Engine) (id : String) (now : String)
    (h : (e.services.map Prod.fst).Nodup) :
    ((((Engine.StopRule e id now).1).services).map Prod.fst).Nodup := by
  unfold Engine.StopRule
  cases hlk : lookupKey id e.services with
  | none => exact h
  | some entry =>
      show ((eraseKey id e.services).map Prod.fst).Nodup
      rw [map_fst_eraseKey]
      exact List.Nodup.filter _ h

theorem keys_nodup_runOps
    (build : Rule → List Chain → Except String Unit) (now : String)
    (nowT : Int) (e : Engine) (ops : List EngineOp)
    (h : (e.services.map Prod.fst).Nodup) :
    (((Engine.runOps build now nowT e ops).services).map Prod.fst).Nodup := by
  induction ops generalizing e with
  | nil => exact h
  | cons op t ih =>
      cases op with
      | start r =>
          exact ih _ (keys_nodup_startRule build now nowT e r h)
      | stop id =>
          exact ih _ (keys_nodup_stopRule e id now h)

theorem lookupKey_map_val {α β : Type} (k : String) (f : α → β)
    (l : List (String × α)) :
    lookupKey k (l.map (fun p => (p.1, f p.2))) = (lookupKey k l).map f := by
  induction l with
  | nil => simp [lookupKey]
  | cons p t ih =>
      obtain ⟨k', v⟩ := p
      by_cases h : k' = k <;> simp [lookupKey, h, ih]

theorem map_tail_eq {α β : Type} (f : α → β) (l : List α) :
    l.tail.map f = (l.map f).tail := by
  cases l <;> rfl

/-! ### Claim C1 -/

/-- Claim C1: if `StartRule r` succeeds, an immediately repeated
`StartRule r` (no intervening `StopRule`) fails with
`ErrServiceRunning`; and after any sequence of `StartRule`/`StopRule`
calls from a fresh engine, the running-id set contains `r.ID` at most
once. -/
theorem c1_startRule_twice_already_running
    (build : Rule → List Chain → Except String Unit)
    (now nowB : String) (nowT nowTB : Int) (e : Engine) (r : Rule)
    (h : (Engine.StartRule build now nowT e r).2 = none) :
    (Engine.StartRule build nowB nowTB
        (Engine.StartRule build now nowT e r).1 r).2
      = some PfmErr.ErrServiceRunning
    ∧ ∀ ops : List EngineOp,
        ((Engine.runOps build now nowT Engine.New ops).GetRunningRuleIDs).count r.ID
          ≤ 1 := by
  constructor
  · obtain ⟨hnone, hsvc, -⟩ := startRule_ok_state build now nowT e r h
    have hsome :
        (lookupKey r.ID ((Engine.StartRule build now nowT e r).1).services).isSome
          = true := by
      rw [hsvc, lookupKey_append, hnone]
      simp [lookupKey]
    generalize hE : (Engine.StartRule build now nowT e r).1 = e1 at hsome ⊢
    unfold Engine.StartRule
    simp [hsome]
  · intro ops
    have hnd := keys_nodup_runOps build now nowT Engine.New ops
      (by simp [Engine.New])
    have := List.nodup_iff_count_le_one.1 hnd r.ID
    simpa [Engine.GetRunningRuleIDs] using this

/-- Witness for C1: on a fresh engine, starting `testRule` succeeds, the
second start reports `ErrServiceRunning`, and every operation sequence
keeps its id at most once in the running set. -/
theorem c1_witness :
    (Engine.StartRule buildOkFn "t0" 0 Engine.New testRule).2 = none
    ∧ ((Engine.StartRule buildOkFn "t1" 1
          (Engine.StartRule buildOkFn "t0" 0 Engine.New testRule).1 testRule).2
        = some PfmErr.ErrServiceRunning
      ∧ ∀ ops : List EngineOp,
          ((Engine.runOps buildOkFn "t0" 0 Engine.New ops).GetRunningRuleIDs).count
              testRule.ID ≤ 1) :=
  ⟨rfl, c1_startRule_twice_already_running buildOkFn "t0" "t1" 0 1
    Engine.New testRule rfl⟩

/-! ### Claim C9 -/

/-- Claim C9: `StopRule` on an id that is not in the running set returns
`ErrServiceNotRunning` and leaves the engine state - running-id set and
every registered service entry - untouched. -/
theorem c9_stopRule_not_running_unchanged (e : Engine) (id now : String)
    (h : Engine.IsRunning e id = false) :
    Engine.StopRule e id now = (e, some PfmErr.ErrServiceNotRunning) :=
  stopRule_not_running e id now h

/-- Witness for C9 on a fresh engine and an unknown id. -/
theorem c9_witness :
    Engine.IsRunning Engine.New "ghost" = false
    ∧ Engine.StopRule Engine.New "ghost" "t0"
        = (Engine.New, some PfmErr.ErrServiceNotRunning) :=
  ⟨rfl, c9_stopRule_not_running_unchanged Engine.New "ghost" "t0" rfl⟩

/-! ### Claim C8 -/

/-- Claim C8: after a successful `StartRule r` followed by
`StopRule r.ID`, the stop succeeds, `IsRunning r.ID` is false, and the
stats entry for `r.ID` still exists and is exactly the one from before
the stop - `StopRule` neither removes nor resets it. -/
theorem c8_stopRule_keeps_stats
    (build : Rule → List Chain → Except String Unit)
    (now nowB : String) (nowT : Int) (e : Engine) (r : Rule)
    (h : (Engine.StartRule build now nowT e r).2 = none) :
    (lookupKey r.ID
        ((Engine.StartRule build now nowT e r).1).stats.stats).isSome = true
    ∧ (Engine.StopRule (Engine.StartRule build now nowT e r).1 r.ID nowB).2 = none
    ∧ Engine.IsRunning
        (Engine.StopRule (Engine.StartRule build now nowT e r).1 r.ID nowB).1 r.ID
        = false
    ∧ (Engine.StopRule (Engine.StartRule build now nowT e r).1 r.ID nowB).1.stats
        = ((Engine.StartRule build now nowT e r).1).stats := by
  obtain ⟨hnone, hsvc, hstats⟩ := startRule_ok_state build now nowT e r h
  have hrun : Engine.IsRunning (Engine.StartRule build now nowT e r).1 r.ID = true := by
    rw [Engine.IsRunning, hsvc, lookupKey_append, hnone]
    simp [lookupKey]
  obtain ⟨herr, hserv, hkeep⟩ :=
    stopRule_running_state (Engine.StartRule build now nowT e r).1 r.ID nowB hrun
  refine ⟨?_, herr, ?_, hkeep⟩
  · rw [hstats]
    unfold StatsTracker.InitRule
    rw [lookupKey_setKey_self]
    rfl
  · rw [Engine.IsRunning, hserv, lookupKey_eraseKey_self]
    rfl

/-- Witness for C8 on a fresh engine and the test rule. -/
theorem c8_witness :
    (Engine.StartRule buildOkFn "t0" 0 Engine.New testRule).2 = none
    ∧ ((lookupKey testRule.ID
          ((Engine.StartRule buildOkFn "t0" 0 Engine.New testRule).1).stats.stats).isSome
            = true
      ∧ (Engine.StopRule (Engine.StartRule buildOkFn "t0" 0 Engine.New testRule).1
            testRule.ID "t1").2 = none
      ∧ Engine.IsRunning
          (Engine.StopRule (Engine.StartRule buildOkFn "t0" 0 Engine.New testRule).1
            testRule.ID "t1").1 testRule.ID = false
      ∧ (Engine.StopRule (Engine.StartRule buildOkFn "t0" 0 Engine.New testRule).1
            testRule.ID "t1").1.stats
          = ((Engine.StartRule buildOkFn "t0" 0 Engine.New testRule).1).stats) :=
  ⟨rfl, c8_stopRule_keeps_stats buildOkFn "t0" "t1" 0 Engine.New testRule rfl⟩

/-! ### Claim C10 -/

/-- Claim C10: the local controller's `StopRule` returns nil for every
id in every state - the engine's `ErrServiceNotRunning` is swallowed and
the `ErrRuleNotFound` from the persisted status update is discarded - so
the caller cannot distinguish stopping a nonexistent rule from stopping
a real one. -/
theorem c10_local_stopRule_always_nil (c : LocalController)
    (id now : String) (nowT : Int) :
    (LocalController.StopRule c id now nowT).2 = none := by
  unfold LocalController.StopRule Engine.StopRule
  cases hlk : lookupKey id c.engine.services with
  | none => simp
  | some entry => simp

/-! ### Claim C2 -/

/-- Counterexample to claim C2 as stated: with the cancellation context
not triggered and the serve error message containing the bind-failure
marker, the claim demands removal of the entry and an `error` callback;
but the closed-connection check runs first, so for a message containing
both markers the code keeps the entry and reports nothing. -/
theorem c2_counterexample :
    Engine.IsRunning testEngineRunning "rule-1" = true
    ∧ strContains "bind: use of closed network connection" "bind:" = true
    ∧ (Engine.serveExit testEngineRunning "rule-1" "web" false
        "bind: use of closed network connection" "t2").2 ≠
          some ("rule-1", "error", "bind: use of closed network connection")
    ∧ Engine.IsRunning
        (Engine.serveExit testEngineRunning "rule-1" "web" false
          "bind: use of closed network connection" "t2").1 "rule-1" = true := by
  refine ⟨rfl, by decide, ?_, rfl⟩
  intro hcontra
  simp [Engine.serveExit, strContains] at hcontra
  revert hcontra
  decide

/-- Claim C2 (amended): when the serve loop exits with an error, the
cancellation context has not fired, and the message does not contain the
closed-connection shutdown marker, then a message matching one of the
bind-failure substrings (address already in use, permission denied,
"bind:") removes the rule's entry and invokes the status-change callback
with status "error" and the message; any other message leaves the
running set unchanged and invokes no callback. -/
theorem c2_serveExit_classification (e : Engine) (id name msg now : String)
    (hclosed : strContains msg "use of closed network connection" = false) :
    ((strContains msg "address already in use"
        || strContains msg "permission denied"
        || strContains msg "bind:") = true →
      (Engine.serveExit e id name false msg now).1.services
          = eraseKey id e.services
      ∧ (Engine.serveExit e id name false msg now).2 = some (id, "error", msg))
    ∧ ((strContains msg "address already in use"
        || strContains msg "permission denied"
        || strContains msg "bind:") = false →
      (Engine.serveExit e id name false msg now).1.services = e.services
      ∧ (Engine.serveExit e id name false msg now).2 = none) := by
  constructor
  · intro hb
    unfold Engine.serveExit
    simp [hclosed, hb]
  · intro hb
    unfold Engine.serveExit
    simp [hclosed, hb]

/-- Witness for C2 on a realistic bind failure message. -/
theorem c2_witness :
    strContains "listen tcp :8080: bind: address already in use"
        "use of closed network connection" = false
    ∧ ((Engine.serveExit testEngineRunning "rule-1" "web" false
          "listen tcp :8080: bind: address already in use" "t2").1.services
        = eraseKey "rule-1" testEngineRunning.services
      ∧ (Engine.serveExit testEngineRunning "rule-1" "web" false
          "listen tcp :8080: bind: address already in use" "t2").2
        = some ("rule-1", "error", "listen tcp :8080: bind: address already in use")) :=
  ⟨by decide,
    (c2_serveExit_classification testEngineRunning "rule-1" "web"
      "listen tcp :8080: bind: address already in use" "t2" (by decide)).1 (by decide)⟩

/-! ### Claim C3 -/

/-- Counterexample to claim C3 as stated: on an entry with two active
connections, `ResetStats` leaves the active-connections counter at 2
rather than zeroing it (the source stores zero into four fields only). -/
theorem c3_counterexample :
    lookupKey "r1" ((StatsTracker.ResetStats ⟨[("r1", ⟨3, 4, 5, 2, 1, 6⟩)]⟩ "r1")).stats
        = some ⟨0, 0, 0, 2, 0, 6⟩
    ∧ (lookupKey "r1"
          ((StatsTracker.ResetStats ⟨[("r1", ⟨3, 4, 5, 2, 1, 6⟩)]⟩ "r1")).stats).map
            RuleStatsEntry.ActiveConns ≠ some 0 := by
  refine ⟨rfl, ?_⟩
  intro hcontra
  simp [StatsTracker.ResetStats, lookupKey, setKey] at hcontra

/-- Claim C3 (amended): for an existing entry, `ResetStats` (and
`ResetAllStats` for every entry) zeroes bytes in, bytes out, total
connections and the error count; the active-connections gauge and the
last-activity stamp are left unchanged. -/
theorem c3_reset_zeroes_cumulative_counters (t : StatsTracker) (id : String)
    (entry : RuleStatsEntry) (h : lookupKey id t.stats = some entry) :
    lookupKey id (t.ResetStats id).stats
        = some { entry with BytesIn := 0, BytesOut := 0, Connections := 0, Errors := 0 }
    ∧ lookupKey id (t.ResetAllStats).stats
        = some { entry with BytesIn := 0, BytesOut := 0, Connections := 0, Errors := 0 } := by
  constructor
  · unfold StatsTracker.ResetStats
    rw [h]
    exact lookupKey_setKey_self id _ t.stats
  · unfold StatsTracker.ResetAllStats
    rw [lookupKey_map_val id RuleStatsEntry.resetCounters t.stats, h]
    rfl

/-- Witness for C3 on a concrete tracker. -/
theorem c3_witness :
    lookupKey "r1" (StatsTracker.stats ⟨[("r1", ⟨3, 4, 5, 2, 1, 6⟩)]⟩) = some ⟨3, 4, 5, 2, 1, 6⟩
    ∧ (lookupKey "r1" ((StatsTracker.ResetStats ⟨[("r1", ⟨3, 4, 5, 2, 1, 6⟩)]⟩ "r1")).stats
          = some ⟨0, 0, 0, 2, 0, 6⟩
      ∧ lookupKey "r1" ((StatsTracker.ResetAllStats ⟨[("r1", ⟨3, 4, 5, 2, 1, 6⟩)]⟩)).stats
          = some ⟨0, 0, 0, 2, 0, 6⟩) :=
  ⟨rfl, c3_reset_zeroes_cumulative_counters ⟨[("r1", ⟨3, 4, 5, 2, 1, 6⟩)]⟩ "r1"
    ⟨3, 4, 5, 2, 1, 6⟩ rfl⟩

/-! ### Log-pipeline lemmas -/

theorem idRange_length (start : Int) (n : Nat) : (idRange start n).length = n := by
  induction n generalizing start with
  | zero => rfl
  | succ m ih => simp [idRange, ih]

theorem idRange_concat (start : Int) (n : Nat) :
    idRange start (n + 1) = idRange start n ++ [start + (n : Int)] := by
  induction n generalizing start with
  | zero => simp [idRange]
  | succ m ih =>
      have h1 : idRange start (m + 1 + 1) = start :: idRange (start + 1) (m + 1) := rfl
      have h2 : idRange start (m + 1) = start :: idRange (start + 1) m := rfl
      rw [h1, ih (start + 1), h2, List.cons_append]
      have harith : start + 1 + (m : Int) = start + ((m : Int) + 1) := by ring
      rw [harith]
      norm_cast

theorem mem_idRange (x start : Int) (n : Nat) :
    x ∈ idRange start n ↔ start ≤ x ∧ x < start + (n : Int) := by
  induction n generalizing start with
  | zero =>
      simp [idRange]
  | succ m ih =>
      simp only [idRange, List.mem_cons, ih (start + 1)]
      constructor
      · rintro (rfl | ⟨h1, h2⟩)
        · exact ⟨by omega, by omega⟩
        · exact ⟨by omega, by omega⟩
      · rintro ⟨h1, h2⟩
        by_cases hx : x = start
        · exact Or.inl hx
        · exact Or.inr ⟨by omega, by omega⟩

theorem idRange_pairwise_lt (start : Int) (n : Nat) :
    (idRange start n).Pairwise (· < ·) := by
  induction n generalizing start with
  | zero => exact List.Pairwise.nil
  | succ m ih =>
      refine List.Pairwise.cons ?_ (ih (start + 1))
      intro x hx
      have hm := (mem_idRange x (start + 1) m).1 hx
      omega

theorem addPayload_nextID (m : LogManager) (p : AddPayload) :
    (m.addPayload p).nextID = m.nextID + 1 := rfl

theorem addPayload_maxSize (m : LogManager) (p : AddPayload) :
    (m.addPayload p).maxSize = m.maxSize := rfl

theorem addPayload_entries_full (m : LogManager) (p : AddPayload)
    (hc : (m.entries.length : Int) ≥ m.maxSize) :
    (m.addPayload p).entries = m.entries.tail ++
      [{ ID := m.nextID, Timestamp := p.now, Level := p.level,
         RuleID := p.ruleID, RuleName := p.ruleName, Message := p.message,
         Details := match p.details with | [] => "" | d :: _ => d }] := by
  unfold LogManager.addPayload LogManager.Add
  simp [hc]

theorem addPayload_entries_notfull (m : LogManager) (p : AddPayload)
    (hc : ¬ ((m.entries.length : Int) ≥ m.maxSize)) :
    (m.addPayload p).entries = m.entries ++
      [{ ID := m.nextID, Timestamp := p.now, Level := p.level,
         RuleID := p.ruleID, RuleName := p.ruleName, Message := p.message,
         Details := match p.details with | [] => "" | d :: _ => d }] := by
  unfold LogManager.addPayload LogManager.Add
  simp [hc]

theorem newLogManager_wf (c : Int) : (NewLogManager c).WF := by
  unfold NewLogManager LogManager.WF
  by_cases h : c ≤ 0
  · simp [h]
  · simp [h]
    omega

theorem addPayload_wf (m : LogManager) (p : AddPayload) (h : m.WF) :
    (m.addPayload p).WF := by
  obtain ⟨h1, h2⟩ := h
  by_cases hc : (m.entries.length : Int) ≥ m.maxSize
  · refine ⟨h1, ?_⟩
    rw [addPayload_entries_full m p hc, addPayload_maxSize]
    have hne : m.entries ≠ [] := by
      intro hnil
      rw [hnil] at hc
      simp at hc
      omega
    have hpos : 1 ≤ m.entries.length := List.length_pos.2 hne
    rw [List.length_append, List.length_tail]
    simp only [List.length_cons, List.length_nil]
    push_cast
    omega
  · refine ⟨h1, ?_⟩
    rw [addPayload_entries_notfull m p hc, addPayload_maxSize]
    rw [List.length_append]
    simp only [List.length_cons, List.length_nil]
    push_cast
    omega

theorem clear_wf (m : LogManager) (h : m.WF) : m.Clear.WF := by
  obtain ⟨h1, -⟩ := h
  exact ⟨h1, by simp [LogManager.Clear]; omega⟩

theorem runOps_wf (ops : List LogOp) (m : LogManager) (h : m.WF) :
    (m.runOps ops).WF := by
  induction ops generalizing m with
  | nil => exact h
  | cons op t ih =>
      cases op with
      | add p => exact ih _ (addPayload_wf m p h)
      | clear => exact ih _ (clear_wf m h)

theorem runOps_maxSize (ops : List LogOp) (m : LogManager) :
    (m.runOps ops).maxSize = m.maxSize := by
  induction ops generalizing m with
  | nil => rfl
  | cons op t ih =>
      cases op with
      | add p => rw [LogManager.runOps, ih, addPayload_maxSize]
      | clear => rw [LogManager.runOps, ih]; rfl

theorem addMany_step (m : LogManager) (pays : List AddPayload) (p : AddPayload) :
    m.addMany (pays ++ [p]) = (m.addMany pays).addPayload p := by
  unfold LogManager.addMany
  rw [List.foldl_append]
  rfl

theorem addMany_maxSize (pays : List AddPayload) (m : LogManager) :
    (m.addMany pays).maxSize = m.maxSize := by
  induction pays generalizing m with
  | nil => rfl
  | cons q t ih =>
      show ((m.addPayload q).addMany t).maxSize = m.maxSize
      rw [ih (m.addPayload q), addPayload_maxSize]

theorem addMany_ids_le_cap (c : Int) (pays : List AddPayload)
    (h : (pays.length : Int) ≤ (NewLogManager c).maxSize) :
    ((NewLogManager c).addMany pays).entries.map LogEntry.ID
        = idRange 1 pays.length
    ∧ ((NewLogManager c).addMany pays).nextID = 1 + (pays.length : Int) := by
  induction pays using List.reverseRecOn with
  | nil => exact ⟨rfl, rfl⟩
  | append_singleton pays p ih =>
      have hlen : (pays.length : Int) ≤ (NewLogManager c).maxSize := by
        rw [List.length_append] at h
        simp only [List.length_cons, List.length_nil] at h
        push_cast at h ⊢
        omega
      obtain ⟨hids, hnext⟩ := ih hlen
      have hstate_len : ((NewLogManager c).addMany pays).entries.length
          = pays.length := by
        have hl := congrArg List.length hids
        rw [List.length_map, idRange_length] at hl
        exact hl
      have hnotfull :
          ¬ ((((NewLogManager c).addMany pays).entries.length : Int)
            ≥ ((NewLogManager c).addMany pays).maxSize) := by
        rw [hstate_len, addMany_maxSize]
        rw [List.length_append] at h
        simp only [List.length_cons, List.length_nil] at h
        push_cast at h ⊢
        omega
      constructor
      · rw [addMany_step, addPayload_entries_notfull _ _ hnotfull,
          List.map_append, hids, hnext, List.length_append]
        simp only [List.map_cons, List.map_nil, List.length_cons, List.length_nil]
        rw [idRange_concat]
      · rw [addMany_step, addPayload_nextID, hnext, List.length_append]
        simp only [List.length_cons, List.length_nil]
        push_cast
        ring

theorem addMany_evicts (c : Int) (pays : List AddPayload) (p : AddPayload)
    (h : (pays.length : Int) = (NewLogManager c).maxSize) :
    (((NewLogManager c).addMany (pays ++ [p])).entries.length : Int)
        = (NewLogManager c).maxSize
    ∧ ((NewLogManager c).addMany (pays ++ [p])).entries.map LogEntry.ID
        = idRange 2 pays.length
    ∧ (1 : Int) ∉ ((NewLogManager c).addMany (pays ++ [p])).entries.map LogEntry.ID := by
  obtain ⟨hids, hnext⟩ := addMany_ids_le_cap c pays (le_of_eq h)
  have hstate_len : ((NewLogManager c).addMany pays).entries.length
      = pays.length := by
    have hl := congrArg List.length hids
    rw [List.length_map, idRange_length] at hl
    exact hl
  have hfull :
      (((NewLogManager c).addMany pays).entries.length : Int)
        ≥ ((NewLogManager c).addMany pays).maxSize := by
    rw [hstate_len, addMany_maxSize, ← h]
  have hcap_pos : 1 ≤ (NewLogManager c).maxSize := (newLogManager_wf c).1
  have hlen_pos : 1 ≤ pays.length := by omega
  obtain ⟨k, hk⟩ : ∃ k, pays.length = k + 1 :=
    ⟨pays.length - 1, by omega⟩
  have hmap : ((NewLogManager c).addMany (pays ++ [p])).entries.map LogEntry.ID
      = idRange 2 pays.length := by
    rw [addMany_step, addPayload_entries_full _ _ hfull, List.map_append,
      map_tail_eq, hids, hnext]
    simp only [List.map_cons, List.map_nil]
    rw [hk]
    have htail : (idRange 1 (k + 1)).tail = idRange 2 k := rfl
    rw [htail]
    have harith : (1 : Int) + ((k + 1 : Nat) : Int) = 2 + (k : Int) := by
      push_cast
      ring
    rw [harith, ← idRange_concat]
  refine ⟨?_, hmap, ?_⟩
  · have hl := congrArg List.length hmap
    rw [List.length_map, idRange_length] at hl
    rw [hl, h]
  · rw [hmap, mem_idRange]
    omega

theorem assignedIds_eq_idRange (ops : List LogOp) (m : LogManager) :
    m.assignedIds ops = idRange m.nextID (countAdds ops) := by
  induction ops generalizing m with
  | nil => rfl
  | cons op t ih =>
      cases op with
      | add p =>
          show m.nextID :: (m.addPayload p).assignedIds t
              = idRange m.nextID (countAdds t + 1)
          rw [ih (m.addPayload p), addPayload_nextID]
          rfl
      | clear =>
          show m.Clear.assignedIds t = idRange m.nextID (countAdds t)
          rw [ih m.Clear]
          rfl

/-! ### Claim C4 -/

/-- Claim C4: for a `LogManager` of capacity C (as fixed by
`NewLogManager`), (i) after any sequence of `Add`/`Clear` operations the
buffer holds at most C entries; (ii) inserting C+1 entries from empty
leaves exactly C entries whose ids are 2..C+1 - the oldest entry, id 1,
is evicted; (iii) the ids assigned by the successive `Add` calls of any
operation sequence are strictly increasing (hence never reused, also
across `Clear`). -/
theorem c4_ring_buffer_eviction_and_monotonic_ids (c : Int) :
    (∀ ops : List LogOp,
        ((((NewLogManager c).runOps ops).entries.length : Int)
          ≤ (NewLogManager c).maxSize))
    ∧ (∀ (pays : List AddPayload) (p : AddPayload),
        (pays.length : Int) = (NewLogManager c).maxSize →
          ((((NewLogManager c).addMany (pays ++ [p])).entries.length : Int)
              = (NewLogManager c).maxSize
            ∧ ((NewLogManager c).addMany (pays ++ [p])).entries.map LogEntry.ID
              = idRange 2 pays.length
            ∧ (1 : Int) ∉
                ((NewLogManager c).addMany (pays ++ [p])).entries.map LogEntry.ID))
    ∧ ∀ ops : List LogOp,
        ((NewLogManager c).assignedIds ops).Pairwise (· < ·) := by
  refine ⟨?_, ?_, ?_⟩
  · intro ops
    have hwf := runOps_wf ops (NewLogManager c) (newLogManager_wf c)
    have := hwf.2
    rwa [runOps_maxSize] at this
  · intro pays p h
    exact addMany_evicts c pays p h
  · intro ops
    rw [assignedIds_eq_idRange]
    exact idRange_pairwise_lt _ _

/-- Witness for C4 with capacity 2 and three insertions. -/
theorem c4_witness :
    (([testPayload, testPayload] : List AddPayload).length : Int)
        = (NewLogManager 2).maxSize
    ∧ ((((NewLogManager 2).addMany
          ([testPayload, testPayload] ++ [testPayload])).entries.length : Int)
        = (NewLogManager 2).maxSize
      ∧ ((NewLogManager 2).addMany
          ([testPayload, testPayload] ++ [testPayload])).entries.map LogEntry.ID
        = idRange 2 2
      ∧ (1 : Int) ∉ ((NewLogManager 2).addMany
          ([testPayload, testPayload] ++ [testPayload])).entries.map LogEntry.ID) :=
  ⟨by decide,
    (c4_ring_buffer_eviction_and_monotonic_ids 2).2.1
      [testPayload, testPayload] testPayload (by decide)⟩

/-! ### Claim C5 -/

/-- Claim C5: after any sequence of `Add` calls, `GetSince k` is a
sublist of the buffer (insertion order preserved), it returns an entry
iff that entry is buffered with id strictly greater than k, and hence it
never returns an entry with id at most k. -/
theorem c5_getSince_exactly_ids_greater (c : Int) (pays : List AddPayload)
    (k : Int) :
    (((NewLogManager c).addMany pays).GetSince k).Sublist
        ((NewLogManager c).addMany pays).entries
    ∧ (∀ en : LogEntry,
        en ∈ ((NewLogManager c).addMany pays).GetSince k
          ↔ en ∈ ((NewLogManager c).addMany pays).entries ∧ k < en.ID) := by
  constructor
  · exact List.filter_sublist _
  · intro en
    simp [LogManager.GetSince, List.mem_filter]

/-! ### Store lemmas -/

theorem nodup_append_singleton {α : Type} (l : List α) (x : α)
    (h : l.Nodup) (hx : x ∉ l) : (l ++ [x]).Nodup := by
  refine List.Nodup.append h (List.nodup_singleton x) ?_
  intro a ha hmem
  rw [List.mem_singleton] at hmem
  subst hmem
  exact hx ha

theorem replaceRuleByID_not_found (newRule : Rule) (rules : List Rule)
    (h : newRule.ID ∉ rules.map Rule.ID) :
    replaceRuleByID newRule rules = (rules, false) := by
  induction rules with
  | nil => rfl
  | cons r t ih =>
      have hne : r.ID ≠ newRule.ID := by
        intro heq
        exact h (by rw [← heq]; exact List.mem_map_of_mem _ (List.mem_cons_self r t))
      have ht : newRule.ID ∉ t.map Rule.ID := by
        intro hm
        exact h (by simp [hm])
      simp [replaceRuleByID, hne, ih ht]

theorem replaceRuleByID_found (newRule : Rule) (rules : List Rule) (i : Nat)
    (hi : i < rules.length)
    (hid : (rules.get ⟨i, hi⟩).ID = newRule.ID)
    (hnd : (rules.map Rule.ID).Nodup) :
    replaceRuleByID newRule rules = (rules.set i newRule.Clone, true) := by
  induction rules generalizing i with
  | nil => simp at hi
  | cons r t ih =>
      cases i with
      | zero =>
          have h0 : r.ID = newRule.ID := by simpa using hid
          simp [replaceRuleByID, h0]
      | succ j =>
          have hj : j < t.length := by simpa using hi
          have hid2 : (t.get ⟨j, hj⟩).ID = newRule.ID := by simpa using hid
          have hnd0 : r.ID ∉ t.map Rule.ID ∧ (t.map Rule.ID).Nodup := by
            rw [List.map_cons, List.nodup_cons] at hnd
            exact hnd
          have hrne : r.ID ≠ newRule.ID := by
            intro heq
            have hmem : newRule.ID ∈ t.map Rule.ID := by
              rw [← hid2]
              exact List.mem_map_of_mem _ (List.get_mem t j hj)
            rw [heq] at hnd0
            exact hnd0.1 hmem
          simp [replaceRuleByID, hrne, ih j hj hid2 hnd0.2]

theorem replaceRuleByID_found_ids (newRule : Rule) (rules : List Rule)
    (h : (replaceRuleByID newRule rules).2 = true) :
    (replaceRuleByID newRule rules).1.map Rule.ID = rules.map Rule.ID := by
  induction rules with
  | nil => simp [replaceRuleByID] at h
  | cons r t ih =>
      by_cases hr : r.ID = newRule.ID
      · simp [replaceRuleByID, hr, Rule.Clone]
      · simp only [replaceRuleByID, if_neg hr] at h ⊢
        simp only [List.map_cons]
        rw [ih h]

theorem replaceRuleByID_snd (newRule : Rule) (rules : List Rule) :
    (replaceRuleByID newRule rules).2 = true ↔ newRule.ID ∈ rules.map Rule.ID := by
  induction rules with
  | nil => simp [replaceRuleByID]
  | cons r t ih =>
      by_cases hr : r.ID = newRule.ID
      · simp [replaceRuleByID, hr]
      · simp [replaceRuleByID, hr, ih, Ne.symm hr]

theorem mergeOneRule_overwrites_in_place (rules : List Rule) (newRule : Rule)
    (i : Nat) (hi : i < rules.length)
    (hid : (rules.get ⟨i, hi⟩).ID = newRule.ID)
    (hnd : (rules.map Rule.ID).Nodup) :
    mergeOneRule rules newRule = rules.set i newRule.Clone := by
  unfold mergeOneRule
  rw [replaceRuleByID_found newRule rules i hi hid hnd]
  rfl

theorem mergeOneRule_appends (rules : List Rule) (newRule : Rule)
    (h : newRule.ID ∉ rules.map Rule.ID) :
    mergeOneRule rules newRule = rules ++ [newRule.Clone] := by
  unfold mergeOneRule
  rw [replaceRuleByID_not_found newRule rules h]
  rfl

theorem mergeOneRule_nodup (rules : List Rule) (newRule : Rule)
    (h : (rules.map Rule.ID).Nodup) :
    ((mergeOneRule rules newRule).map Rule.ID).Nodup := by
  unfold mergeOneRule
  cases hb : (replaceRuleByID newRule rules).2 with
  | true =>
      simp only [hb, if_true]
      rw [replaceRuleByID_found_ids newRule rules hb]
      exact h
  | false =>
      simp only [hb, Bool.false_eq_true, if_false, List.map_append]
      have hnotin : newRule.ID ∉ rules.map Rule.ID := by
        intro hmem
        rw [← replaceRuleByID_snd newRule rules] at hmem
        rw [hb] at hmem
        simp at hmem
      simp only [List.map_cons, List.map_nil]
      exact nodup_append_singleton _ _ h (by simpa [Rule.Clone] using hnotin)

theorem foldl_mergeOneRule_nodup (imports : List Rule) (rules : List Rule)
    (h : (rules.map Rule.ID).Nodup) :
    ((imports.foldl mergeOneRule rules).map Rule.ID).Nodup := by
  induction imports generalizing rules with
  | nil => exact h
  | cons nr t ih => exact ih _ (mergeOneRule_nodup rules nr h)

theorem replaceChainByID_found_ids (newChain : Chain) (chains : List Chain)
    (h : (replaceChainByID newChain chains).2 = true) :
    (replaceChainByID newChain chains).1.map Chain.ID = chains.map Chain.ID := by
  induction chains with
  | nil => simp [replaceChainByID] at h
  | cons cc t ih =>
      by_cases hr : cc.ID = newChain.ID
      · simp [replaceChainByID, hr, Chain.Clone]
      · simp only [replaceChainByID, if_neg hr] at h ⊢
        simp only [List.map_cons]
        rw [ih h]

theorem replaceChainByID_snd (newChain : Chain) (chains : List Chain) :
    (replaceChainByID newChain chains).2 = true
      ↔ newChain.ID ∈ chains.map Chain.ID := by
  induction chains with
  | nil => simp [replaceChainByID]
  | cons cc t ih =>
      by_cases hr : cc.ID = newChain.ID
      · simp [replaceChainByID, hr]
      · simp [replaceChainByID, hr, ih, Ne.symm hr]

theorem mergeOneChain_nodup (chains : List Chain) (newChain : Chain)
    (h : (chains.map Chain.ID).Nodup) :
    ((mergeOneChain chains newChain).map Chain.ID).Nodup := by
  unfold mergeOneChain
  cases hb : (replaceChainByID newChain chains).2 with
  | true =>
      simp only [hb, if_true]
      rw [replaceChainByID_found_ids newChain chains hb]
      exact h
  | false =>
      simp only [hb, Bool.false_eq_true, if_false, List.map_append]
      have hnotin : newChain.ID ∉ chains.map Chain.ID := by
        intro hmem
        rw [← replaceChainByID_snd newChain chains] at hmem
        rw [hb] at hmem
        simp at hmem
      simp only [List.map_cons, List.map_nil]
      exact nodup_append_singleton _ _ h (by simpa [Chain.Clone] using hnotin)

theorem foldl_mergeOneChain_nodup (imports : List Chain) (chains : List Chain)
    (h : (chains.map Chain.ID).Nodup) :
    ((imports.foldl mergeOneChain chains).map Chain.ID).Nodup := by
  induction imports generalizing chains with
  | nil => exact h
  | cons nc t ih => exact ih _ (mergeOneChain_nodup chains nc h)

/-! ### Claim C6 -/

/-- Claim C6: during a merge import, an imported rule whose id matches
an existing rule overwrites that rule in place (position kept in the
list); an imported rule with a new id is appended; and after
`ImportData` with merge=true the rule ids - and likewise the chain
ids - contain no duplicates. -/
theorem c6_merge_import_semantics (s : Store) (data : AppData)
    (rules : List Rule) (newRule : Rule) (i : Nat) (hi : i < rules.length)
    (hid : (rules.get ⟨i, hi⟩).ID = newRule.ID)
    (hnd : (rules.map Rule.ID).Nodup)
    (hrs : (s.data.Rules.map Rule.ID).Nodup)
    (hcs : (s.data.Chains.map Chain.ID).Nodup) :
    mergeOneRule rules newRule = rules.set i newRule.Clone
    ∧ (∀ r2 : Rule, r2.ID ∉ rules.map Rule.ID →
        mergeOneRule rules r2 = rules ++ [r2.Clone])
    ∧ ((Store.ImportData s data true).data.Rules.map Rule.ID).Nodup
    ∧ ((Store.ImportData s data true).data.Chains.map Chain.ID).Nodup := by
  refine ⟨mergeOneRule_overwrites_in_place rules newRule i hi hid hnd,
    fun r2 h2 => mergeOneRule_appends rules r2 h2, ?_, ?_⟩
  · exact foldl_mergeOneRule_nodup data.Rules s.data.Rules hrs
  · exact foldl_mergeOneChain_nodup data.Chains s.data.Chains hcs

/-- Witness for C6: `testRuleB2` overwrites `testRuleB` in place in
`testStore`, a fresh id appends, and the merged store stays
duplicate-free. -/
theorem c6_witness :
    (([testRule, testRuleB].get ⟨1, by decide⟩).ID = testRuleB2.ID
      ∧ (([testRule, testRuleB] : List Rule).map Rule.ID).Nodup
      ∧ ((testStore.data.Rules.map Rule.ID).Nodup
      ∧ (testStore.data.Chains.map Chain.ID).Nodup))
    ∧ (mergeOneRule [testRule, testRuleB] testRuleB2
        = ([testRule, testRuleB].set 1 testRuleB2.Clone)
      ∧ (∀ r2 : Rule, r2.ID ∉ ([testRule, testRuleB] : List Rule).map Rule.ID →
          mergeOneRule [testRule, testRuleB] r2 = [testRule, testRuleB] ++ [r2.Clone])
      ∧ ((Store.ImportData testStore testImport true).data.Rules.map Rule.ID).Nodup
      ∧ ((Store.ImportData testStore testImport true).data.Chains.map Chain.ID).Nodup) :=
  ⟨⟨by decide, by decide, by decide, by decide⟩,
    c6_merge_import_semantics testStore testImport [testRule, testRuleB]
      testRuleB2 1 (by decide) (by decide) (by decide) (by decide) (by decide)⟩

/-! ### Claim C7 -/

/-- Claim C7: `ExportData` followed by `ImportData` of the decoded
payload with merge=false into an empty store reproduces the same rule
and chain records - same ids and same field values (JSON encode/decode
of the payload is an external collaborator modelled as the identity; the
spec places the file format out of scope). -/
theorem c7_export_import_roundtrip (s : Store) :
    (Store.ImportData ⟨NewAppData⟩ (Store.ExportData s) false).data.Rules
        = s.data.Rules
    ∧ (Store.ImportData ⟨NewAppData⟩ (Store.ExportData s) false).data.Chains
        = s.data.Chains
    ∧ Store.GetRules (Store.ImportData ⟨NewAppData⟩ (Store.ExportData s) false)
        = Store.GetRules s
    ∧ Store.GetChains (Store.ImportData ⟨NewAppData⟩ (Store.ExportData s) false)
        = Store.GetChains s :=
  ⟨rfl, rfl, rfl, rfl⟩
